import Mathlib

/-!
Verification development for the `warehouse_ros` repository's
`mongo_ros::MessageCollection<M>` class
(src/include/mongo_ros/message_collection.h).

The repository ships only the class declaration with its doc comments; the
implementation file `impl/message_collection_impl.hpp` is included by the
header but is not part of the source tree.  The operations below are
therefore modelled from the specification and the header's doc comments,
as a shallow embedding: the collection is a state value, each mutating
member function is a state transformer, each const member function is a
pure function of the state.
-/

namespace MongoRos

/-- Scalar values storable in a metadata document (spec: "a flexible,
order-irrelevant mapping from field name to typed scalar value
(string/number/etc.)").  Numbers are modelled as integers. -/
inductive Val : Type where
  | vstr : String → Val
  | vnum : Int → Val
  | vbool : Bool → Val
deriving DecidableEq, Repr

/-- A metadata document: an association list from field names to scalar
values. -/
abbrev Metadata : Type := List (String × Val)

/-- Look up the value of a field in a metadata document (first occurrence
wins, as in a BSON document read). -/
def lookupMeta (m : Metadata) (k : String) : Option Val :=
  (List.find? (fun kv => kv.1 == k) m).map (fun kv => kv.2)

/-- Comparison operators available in a query ("equality/comparison
predicates" per the spec's data model). -/
inductive CmpOp : Type where
  | ceq | clt | clte | cgt | cgte
deriving DecidableEq, Repr

/-- Strict comparison of two scalar values; values of different kinds are
incomparable. -/
def valLt : Val → Val → Bool
  | Val.vnum a, Val.vnum b => decide (a < b)
  | Val.vstr a, Val.vstr b => decide (a < b)
  | Val.vbool a, Val.vbool b => !a && b
  | _, _ => false

/-- Non-strict comparison of two scalar values. -/
def valLe (a b : Val) : Bool := valLt a b || decide (a = b)

/-- One conjunct of a query: a predicate on a single metadata field. -/
structure Cond : Type where
  field : String
  op : CmpOp
  value : Val
deriving DecidableEq, Repr

/-- A query: a conjunction of field predicates, as built by
`mongo_ros::Query` (spec: "an expression over metadata fields
(equality/comparison predicates)"). -/
abbrev Query : Type := List Cond

/-- Whether one query conjunct holds of a metadata document.  A missing
field satisfies no predicate. -/
def condHolds (doc : Metadata) (c : Cond) : Bool :=
  match lookupMeta doc c.field with
  | none => false
  | some v =>
    match c.op with
    | CmpOp.ceq => decide (v = c.value)
    | CmpOp.clt => valLt v c.value
    | CmpOp.clte => valLe v c.value
    | CmpOp.cgt => valLt c.value v
    | CmpOp.cgte => valLe c.value v

/-- Whether a query matches a metadata document (all conjuncts hold). -/
def metaMatches (q : Query) (doc : Metadata) : Bool :=
  List.all q (condHolds doc)

/-- A stored record: the deserialized message payload together with the
user metadata and the two generated fields.  Spec: "a pairing of (a) a
serialized message blob held in a large-object store and (b) a metadata
document containing user-supplied key/value fields plus two mandatory
generated fields: a unique identifier and a creation timestamp." -/
structure Record (M : Type) : Type where
  id : Nat
  ctime : Nat
  meta : Metadata
  msg : M
deriving DecidableEq, Repr

/-- The full metadata document of a stored record: the generated `_id` and
`creation_time` fields together with the user-supplied fields. -/
def metaDoc {M : Type} (r : Record M) : Metadata :=
  ("_id", Val.vnum (r.id : Int)) :: ("creation_time", Val.vnum (r.ctime : Int)) :: r.meta

/-- Whether a query matches a stored record's metadata document. -/
def recordMatches {M : Type} (q : Query) (r : Record M) : Bool :=
  metaMatches q (metaDoc r)

/-- The state of one `MessageCollection<M>` handle together with the
collection it manages and the notifications it has published. -/
structure CollState (M : Type) : Type where
  dbName : String
  collName : String
  records : List (Record M)
  nextId : Nat
  time : Nat
  indexes : List String
  storedMd5 : String
  compiledMd5 : String
  md5sumMatches : Bool
  published : List String
deriving DecidableEq, Repr

/-- Modelled from the spec: the body of `MessageCollection::initialize`
(in the missing `impl/message_collection_impl.hpp`).  Connects to the
given database and collection; the collection starts with indexes on
`_id` and `creation_time` ("Note that index on _id and creation_time are
always created"), and the schema-compatibility flag records whether the
locally computed digest of the compiled message type equals the digest
stored by a prior run. -/
def initState (M : Type) (db coll : String) (storedMd5 compiledMd5 : String) :
    CollState M :=
  { dbName := db
    collName := coll
    records := []
    nextId := 0
    time := 0
    indexes := ["_id", "creation_time"]
    storedMd5 := storedMd5
    compiledMd5 := compiledMd5
    md5sumMatches := decide (compiledMd5 = storedMd5)
    published := [] }

/-- The fixed topic an insertion notification is published on
(header: "publishes a notification message on the topic
warehouse/db/collection/inserts"). -/
def insertTopic {M : Type} (s : CollState M) : String :=
  "warehouse/" ++ s.dbName ++ "/" ++ s.collName ++ "/inserts"

/-- The record a call to `insert` appends: the generated unique id, the
generated creation time, the caller's metadata and the message. -/
def newRecord {M : Type} (s : CollState M) (msg : M) (d : Metadata) : Record M :=
  { id := s.nextId, ctime := s.time, meta := d, msg := msg }

/-- Modelled from the spec: the body of `MessageCollection::insert` (in
the missing `impl/message_collection_impl.hpp`).  Stores the message with
the given metadata, autogenerating the unique `_id` and the
`creation_time` fields, and publishes one notification on the fixed
topic. -/
def insert {M : Type} (s : CollState M) (msg : M) (d : Metadata) : CollState M :=
  { s with
    records := s.records ++ [newRecord s msg d]
    nextId := s.nextId + 1
    time := s.time + 1
    published := s.published ++ [insertTopic s] }

/-- Insert a record into a list sorted by `le`, keeping it sorted. -/
def insertSorted {M : Type} (le : Record M → Record M → Bool) (r : Record M) :
    List (Record M) → List (Record M)
  | [] => [r]
  | x :: xs => if le r x then r :: x :: xs else x :: insertSorted le r xs

/-- Insertion sort of a record list by `le`. -/
def sortRecs {M : Type} (le : Record M → Record M → Bool) :
    List (Record M) → List (Record M)
  | [] => []
  | x :: xs => insertSorted le x (sortRecs le xs)

/-- The sort order used by a query's optional sort field and direction. -/
def sortLe {M : Type} (sortBy : String) (ascending : Bool)
    (a b : Record M) : Bool :=
  let ka := lookupMeta (metaDoc a) sortBy
  let kb := lookupMeta (metaDoc b) sortBy
  let le : Option Val → Option Val → Bool := fun x y =>
    match x, y with
    | none, _ => true
    | some _, none => false
    | some u, some v => valLe u v
  if ascending then le ka kb else le kb ka

/-- Modelled from the spec: the body of `MessageCollection::queryResults`
(in the missing `impl/message_collection_impl.hpp`).  Returns the range
of stored records matching the query, optionally sorted by a metadata
field, ascending or descending; when `metadataOnly` is true only the
metadata is retrieved and each returned message object is default
constructed. -/
def queryResults {M : Type} [Inhabited M] (s : CollState M) (q : Query)
    (metadataOnly : Bool) (sortBy : String) (ascending : Bool) :
    List (Record M) :=
  let matching := List.filter (fun r => recordMatches q r) s.records
  let sorted := if sortBy = "" then matching
    else sortRecs (sortLe sortBy ascending) matching
  List.map (fun r => if metadataOnly then { r with msg := default } else r) sorted

/-- Modelled from the spec: the body of `MessageCollection::pullAllResults`
(in the missing `impl/message_collection_impl.hpp`).  "Convenience
function that calls queryResult and puts the results into a vector":
iterates the range returned by `queryResults`, pushing each element onto
an initially empty vector. -/
def pullAllResults {M : Type} [Inhabited M] (s : CollState M) (q : Query)
    (metadataOnly : Bool) (sortBy : String) (ascending : Bool) :
    List (Record M) :=
  List.foldl (fun acc r => acc ++ [r]) []
    (queryResults s q metadataOnly sortBy ascending)

/-- The distinguished "no matching record" condition thrown by `findOne`. -/
inductive QueryError : Type where
  | NoMatchingMessageException
deriving DecidableEq, Repr

/-- Modelled from the spec: the body of `MessageCollection::findOne` (in
the missing `impl/message_collection_impl.hpp`).  Returns a single
matching result for the query, and throws `NoMatchingMessageException`
when there is none. -/
def findOne {M : Type} [Inhabited M] (s : CollState M) (q : Query)
    (metadataOnly : Bool) : Except QueryError (Record M) :=
  match queryResults s q metadataOnly "" true with
  | [] => Except.error QueryError.NoMatchingMessageException
  | r :: _ => Except.ok r

/-- Modelled from the spec: the body of `MessageCollection::removeMessages`
(in the missing `impl/message_collection_impl.hpp`).  Removes the stored
records matching the query and returns how many were removed. -/
def removeMessages {M : Type} (s : CollState M) (q : Query) :
    Nat × CollState M :=
  ((List.filter (fun r => recordMatches q r) s.records).length,
    { s with records := List.filter (fun r => !recordMatches q r) s.records })

/-- Modelled from the spec: the body of `MessageCollection::ensureIndex`
(in the missing `impl/message_collection_impl.hpp`).  Ensures that there
is an index on the given metadata field; the stored records are
untouched. -/
def ensureIndex {M : Type} (s : CollState M) (field : String) : CollState M :=
  { s with
    indexes := if field ∈ s.indexes then s.indexes else s.indexes ++ [field] }

/-- Merge an update document into an existing metadata document: keys
occurring in the update overwrite, keys not occurring in it keep their
previous value. -/
def mergeMeta (old upd : Metadata) : Metadata :=
  List.filter (fun kv => !(List.any upd (fun kv2 => kv2.1 == kv.1))) old ++ upd

/-- Update the first record of the list matching the query by merging the
update document into its metadata; the message payload is untouched. -/
def modifyFirstMatching {M : Type} (q : Query) (m : Metadata) :
    List (Record M) → List (Record M)
  | [] => []
  | r :: rs =>
    if recordMatches q r then { r with meta := mergeMeta r.meta m } :: rs
    else r :: modifyFirstMatching q m rs

/-- Modelled from the spec: the body of `MessageCollection::modifyMetadata`
(in the missing `impl/message_collection_impl.hpp`).  "Find message
matching q and update its metadata using m.  In other words, overwrite
keys in the message using m, but keep keys that don't occur in m." -/
def modifyMetadata {M : Type} (s : CollState M) (q : Query) (m : Metadata) :
    CollState M :=
  { s with records := modifyFirstMatching q m s.records }

/-- Modelled from the spec: the body of `MessageCollection::count` (in the
missing `impl/message_collection_impl.hpp`).  Counts the messages in the
collection. -/
def count {M : Type} (s : CollState M) : Nat :=
  s.records.length

/-- Modelled from the spec: the body of `MessageCollection::md5SumMatches`
(in the missing `impl/message_collection_impl.hpp`).  Returns the flag
computed at connection time: whether the md5 sum of the messages
previously stored in the database matches that of the compiled message. -/
def md5SumMatches {M : Type} (s : CollState M) : Bool :=
  s.md5sumMatches

/-- The state-mutating operations of the class (the const member functions
`queryResults`, `pullAllResults`, `findOne`, `md5SumMatches` are pure and
do not appear here; `count` performs no mutation either). -/
inductive Op (M : Type) : Type where
  | opInsert : M → Metadata → Op M
  | opRemove : Query → Op M
  | opModify : Query → Metadata → Op M
  | opEnsureIndex : String → Op M
deriving Repr

/-- One mutating operation applied to the collection state. -/
def step {M : Type} : Op M → CollState M → CollState M
  | Op.opInsert msg d, s => insert s msg d
  | Op.opRemove q, s => (removeMessages s q).2
  | Op.opModify q m, s => modifyMetadata s q m
  | Op.opEnsureIndex f, s => ensureIndex s f

/-- A sequence of mutating operations applied in order. -/
def run {M : Type} (s : CollState M) : List (Op M) → CollState M
  | [] => s
  | o :: os => run (step o s) os

/-- The external database driver, abstracted to whether its connect and
its write succeed.  Spec: "Failures are surfaced as exceptions
originating from the underlying driver (connection failure, write
failure)". -/
structure Driver : Type where
  connectOk : Bool
  insertOk : Bool
deriving DecidableEq, Repr

/-- The exceptions surfaced to the caller: `DbConnectException` from the
constructor, `mongo::DBException` from `insert`. -/
inductive DbErr : Type where
  | DbConnectException
  | DBException
deriving DecidableEq, Repr

/-- Modelled from the spec: the fallible constructor
`MessageCollection::MessageCollection` (its body is in the missing
`impl/message_collection_impl.hpp`).  "Throw a DbConnectException if
can't connect within this many seconds"; the driver's connection outcome
is surfaced unchanged, with no local retry or recovery. -/
def connectColl (M : Type) (drv : Driver) (db coll storedMd5 compiledMd5 : String) :
    Except DbErr (CollState M) :=
  if drv.connectOk then Except.ok (initState M db coll storedMd5 compiledMd5)
  else Except.error DbErr.DbConnectException

/-- Modelled from the spec: `MessageCollection::insert` run against the
fallible driver ("\throws mongo::DBException if unable to insert"); a
driver write failure is surfaced unchanged, with no partial effect, no
retry and no recovery. -/
def insertViaDriver {M : Type} (drv : Driver) (s : CollState M) (msg : M)
    (d : Metadata) : Except DbErr (CollState M) :=
  if drv.insertOk then Except.ok (insert s msg d)
  else Except.error DbErr.DBException

/-- A metadata document is well formed when the caller does not use the
two reserved, autogenerated field names (spec: the metadata document
contains "user-supplied key/value fields plus two mandatory generated
fields"). -/
def wfMeta (m : Metadata) : Prop :=
  ∀ kv ∈ m, kv.1 ≠ "_id" ∧ kv.1 ≠ "creation_time"

instance wfMeta.decidable (m : Metadata) : Decidable (wfMeta m) := by
  unfold wfMeta
  infer_instance

/-- An operation is well formed when any metadata it supplies is. -/
def wfOp {M : Type} : Op M → Prop
  | Op.opInsert _ d => wfMeta d
  | Op.opModify _ m => wfMeta m
  | _ => True

instance wfOp.decidable {M : Type} (op : Op M) : Decidable (wfOp op) := by
  cases op <;> (unfold wfOp) <;> infer_instance

/-- Number of entries of a metadata document carrying the given key. -/
def countKey (m : Metadata) (k : String) : Nat :=
  (List.filter (fun kv => kv.1 == k) m).length

/-- The state invariant maintained by every operation: record ids are
below the id counter and pairwise distinct, user metadata never uses the
reserved field names, and the indexes on `_id` and `creation_time`
exist. -/
def stateInv {M : Type} (s : CollState M) : Prop :=
  (∀ r ∈ s.records, r.id < s.nextId) ∧
  (List.map Record.id s.records).Nodup ∧
  (∀ r ∈ s.records, wfMeta r.meta) ∧
  "_id" ∈ s.indexes ∧ "creation_time" ∈ s.indexes

theorem lookupMeta_nil (k : String) : lookupMeta [] k = none := rfl

theorem lookupMeta_cons (kv : String × Val) (l : Metadata) (k : String) :
    lookupMeta (kv :: l) k = if kv.1 = k then some kv.2 else lookupMeta l k := by
  by_cases h : kv.1 = k <;> simp [lookupMeta, List.find?_cons, h]

theorem lookupMeta_eq_none (l : Metadata) (k : String) :
    lookupMeta l k = none ↔ ∀ kv ∈ l, kv.1 ≠ k := by
  simp [lookupMeta, List.find?_eq_none]

theorem mem_insertSorted {M : Type} (le : Record M → Record M → Bool)
    (r a : Record M) (l : List (Record M)) :
    a ∈ insertSorted le r l ↔ a = r ∨ a ∈ l := by
  induction l with
  | nil => simp [insertSorted]
  | cons x xs ih =>
    by_cases h : le r x
    · simp [insertSorted, h]
    · simp [insertSorted, h, ih]
      tauto

theorem mem_sortRecs {M : Type} (le : Record M → Record M → Bool)
    (a : Record M) (l : List (Record M)) :
    a ∈ sortRecs le l ↔ a ∈ l := by
  induction l with
  | nil => simp [sortRecs]
  | cons x xs ih => simp [sortRecs, mem_insertSorted, ih]

theorem lookupMeta_metaDoc {M : Type} (r : Record M) (k : String)
    (h1 : k ≠ "_id") (h2 : k ≠ "creation_time") :
    lookupMeta (metaDoc r) k = lookupMeta r.meta k := by
  unfold metaDoc
  rw [lookupMeta_cons, lookupMeta_cons]
  simp [Ne.symm h1, Ne.symm h2]

theorem condHolds_metaDoc {M : Type} (r : Record M) (c : Cond)
    (h1 : c.field ≠ "_id") (h2 : c.field ≠ "creation_time") :
    condHolds (metaDoc r) c = condHolds r.meta c := by
  unfold condHolds
  rw [lookupMeta_metaDoc r c.field h1 h2]

theorem recordMatches_newRecord {M : Type} (s : CollState M) (msg : M)
    (d : Metadata) (q : Query)
    (hq : ∀ c ∈ q, c.field ≠ "_id" ∧ c.field ≠ "creation_time")
    (hd : metaMatches q d = true) :
    recordMatches q (newRecord s msg d) = true := by
  unfold recordMatches metaMatches at *
  rw [List.all_eq_true] at *
  intro c hc
  rw [condHolds_metaDoc _ c (hq c hc).1 (hq c hc).2]
  exact hd c hc

theorem recordMatches_set_msg {M : Type} (q : Query) (r : Record M) (m : M) :
    recordMatches q { r with msg := m } = recordMatches q r := rfl

theorem lookupMeta_append (a b : Metadata) (k : String) :
    lookupMeta (a ++ b) k = Option.or (lookupMeta a k) (lookupMeta b k) := by
  unfold lookupMeta
  rw [List.find?_append]
  cases List.find? (fun kv => kv.1 == k) a <;> simp

theorem lookupMeta_filter_of_keep (p : String × Val → Bool) (l : Metadata)
    (k : String) (hkeep : ∀ kv : String × Val, kv.1 = k → p kv = true) :
    lookupMeta (List.filter p l) k = lookupMeta l k := by
  induction l with
  | nil => rfl
  | cons kv rest ih =>
    by_cases hk : kv.1 = k
    · rw [List.filter_cons, hkeep kv hk]
      simp [lookupMeta_cons, hk]
    · rw [List.filter_cons]
      cases hp : p kv
      · simp [lookupMeta_cons, hk, ih]
      · simp [lookupMeta_cons, hk, ih]

theorem lookupMeta_mergeMeta (old upd : Metadata) (k : String) :
    lookupMeta (mergeMeta old upd) k =
      Option.or (lookupMeta upd k) (lookupMeta old k) := by
  unfold mergeMeta
  rw [lookupMeta_append]
  cases hu : lookupMeta upd k with
  | some v =>
    have hnone : lookupMeta
        (List.filter (fun kv => !(List.any upd (fun kv2 => kv2.1 == kv.1))) old) k = none := by
      rw [lookupMeta_eq_none]
      intro kv hkv hk
      have hkeep : (!(List.any upd (fun kv2 => kv2.1 == kv.1))) = true :=
        (List.mem_filter.mp hkv).2
      simp only [Bool.not_eq_true', List.any_eq_false, beq_eq_false_iff_ne] at hkeep
      unfold lookupMeta at hu
      rcases Option.map_eq_some'.mp hu with ⟨kv2, hfind, _⟩
      have hmem := List.mem_of_find?_eq_some hfind
      have hkk : kv2.1 = k := by simpa using List.find?_some hfind
      exact hkeep kv2 hmem (beq_iff_eq.mpr (hkk.trans hk.symm))
    rw [hnone]
    simp
  | none =>
    have hall : ∀ kv2 ∈ upd, kv2.1 ≠ k := (lookupMeta_eq_none upd k).mp hu
    rw [lookupMeta_filter_of_keep _ old k]
    · simp
    · intro kv hk
      simp only [Bool.not_eq_true', List.any_eq_false]
      intro kv2 hkv2
      simp only [beq_iff_eq, hk]
      exact hall kv2 hkv2

theorem mem_mergeMeta (old upd : Metadata) (kv : String × Val)
    (h : kv ∈ mergeMeta old upd) : kv ∈ old ∨ kv ∈ upd := by
  unfold mergeMeta at h
  rcases List.mem_append.mp h with h | h
  · exact Or.inl (List.mem_of_mem_filter h)
  · exact Or.inr h

theorem modifyFirstMatching_eq {M : Type} (q : Query) (m : Metadata)
    (pre post : List (Record M)) (r : Record M)
    (hpre : ∀ x ∈ pre, recordMatches q x = false)
    (hr : recordMatches q r = true) :
    modifyFirstMatching q m (pre ++ r :: post) =
      pre ++ { r with meta := mergeMeta r.meta m } :: post := by
  induction pre with
  | nil => simp [modifyFirstMatching, hr]
  | cons x xs ih =>
    have hx := hpre x (by simp)
    simp only [List.cons_append, modifyFirstMatching, hx]
    simp only [Bool.false_eq_true, if_false, List.cons.injEq, true_and]
    exact ih (fun y hy => hpre y (by simp [hy]))

theorem modifyFirstMatching_mem {M : Type} (q : Query) (m : Metadata)
    (l : List (Record M)) (r' : Record M)
    (h : r' ∈ modifyFirstMatching q m l) :
    ∃ r ∈ l, r'.id = r.id ∧ r'.ctime = r.ctime ∧ r'.msg = r.msg ∧
      (r'.meta = r.meta ∨ r'.meta = mergeMeta r.meta m) := by
  induction l with
  | nil => simp [modifyFirstMatching] at h
  | cons x xs ih =>
    by_cases hx : recordMatches q x
    · simp only [modifyFirstMatching, hx, if_true] at h
      rcases List.mem_cons.mp h with h | h
      · exact ⟨x, by simp, by simp [h]⟩
      · exact ⟨r', List.mem_cons_of_mem x h, rfl, rfl, rfl, Or.inl rfl⟩
    · simp only [modifyFirstMatching, hx] at h
      simp only [Bool.false_eq_true, if_false] at h
      rcases List.mem_cons.mp h with h | h
      · exact ⟨x, by simp, by simp [h]⟩
      · rcases ih h with ⟨r, hrmem, hrest⟩
        exact ⟨r, List.mem_cons_of_mem x hrmem, hrest⟩

theorem modifyFirstMatching_map_id {M : Type} (q : Query) (m : Metadata)
    (l : List (Record M)) :
    List.map Record.id (modifyFirstMatching q m l) = List.map Record.id l := by
  induction l with
  | nil => rfl
  | cons x xs ih =>
    by_cases hx : recordMatches q x
    · simp [modifyFirstMatching, hx]
    · simp [modifyFirstMatching, hx, ih]

theorem queryResults_no_meta_only {M : Type} [Inhabited M] (s : CollState M)
    (q : Query) (sortBy : String) (ascending : Bool) :
    queryResults s q false sortBy ascending =
      (if sortBy = "" then
        List.filter (fun r => recordMatches q r) s.records
       else
        sortRecs (sortLe sortBy ascending)
          (List.filter (fun r => recordMatches q r) s.records)) := by
  unfold queryResults
  by_cases h : sortBy = "" <;> simp [h]

theorem mem_queryResults_no_meta_only {M : Type} [Inhabited M]
    (s : CollState M) (q : Query) (sortBy : String) (ascending : Bool)
    (r : Record M) :
    r ∈ queryResults s q false sortBy ascending ↔
      r ∈ s.records ∧ recordMatches q r = true := by
  rw [queryResults_no_meta_only]
  by_cases h : sortBy = "" <;> simp [h, mem_sortRecs, List.mem_filter]

theorem queryResults_nosort {M : Type} [Inhabited M] (s : CollState M)
    (q : Query) (metadataOnly : Bool) (ascending : Bool) :
    queryResults s q metadataOnly "" ascending =
      List.map (fun r => if metadataOnly then { r with msg := default } else r)
        (List.filter (fun r => recordMatches q r) s.records) := by
  unfold queryResults
  simp

theorem foldl_push_eq {α : Type} (l acc : List α) :
    List.foldl (fun acc r => acc ++ [r]) acc l = acc ++ l := by
  induction l generalizing acc with
  | nil => simp
  | cons x xs ih => simp [List.foldl_cons, ih]

theorem stateInv_init (M : Type) (db coll storedMd5 compiledMd5 : String) :
    stateInv (initState M db coll storedMd5 compiledMd5) := by
  unfold stateInv initState
  simp

theorem stateInv_step {M : Type} (op : Op M) (s : CollState M)
    (hop : wfOp op) (h : stateInv s) : stateInv (step op s) := by
  obtain ⟨hlt, hnd, hwf, hi1, hi2⟩ := h
  cases op with
  | opInsert msg d =>
    refine ⟨?_, ?_, ?_, hi1, hi2⟩
    · intro r hr
      rcases List.mem_append.mp hr with hr | hr
      · exact Nat.lt_succ_of_lt (hlt r hr)
      · simp only [List.mem_singleton] at hr
        subst hr
        exact Nat.lt_succ_self _
    · have : List.map Record.id (s.records ++ [newRecord s msg d]) =
          List.map Record.id s.records ++ [s.nextId] := by
        simp [newRecord]
      rw [show (step (Op.opInsert msg d) s).records =
          s.records ++ [newRecord s msg d] from rfl, this]
      rw [List.nodup_append]
      refine ⟨hnd, List.nodup_singleton _, ?_⟩
      intro a ha hb
      simp only [List.mem_singleton] at hb
      subst hb
      rcases List.mem_map.mp ha with ⟨r, hr, hid⟩
      exact absurd (hid ▸ hlt r hr) (Nat.lt_irrefl _)
    · intro r hr
      rcases List.mem_append.mp hr with hr | hr
      · exact hwf r hr
      · simp only [List.mem_singleton] at hr
        subst hr
        exact hop
  | opRemove q =>
    have hsub : ((removeMessages s q).2).records.Sublist s.records :=
      List.filter_sublist s.records
    refine ⟨fun r hr => hlt r (hsub.mem hr),
      List.Nodup.sublist (hsub.map Record.id) hnd,
      fun r hr => hwf r (hsub.mem hr), hi1, hi2⟩
  | opModify q m =>
    refine ⟨?_, ?_, ?_, hi1, hi2⟩
    · intro r' hr'
      rcases modifyFirstMatching_mem q m s.records r' hr' with ⟨r, hr, hid, _⟩
      exact hid ▸ hlt r hr
    · rw [show (step (Op.opModify q m) s).records =
        modifyFirstMatching q m s.records from rfl,
        modifyFirstMatching_map_id]
      exact hnd
    · intro r' hr'
      rcases modifyFirstMatching_mem q m s.records r' hr' with
        ⟨r, hr, _, _, _, hmeta | hmeta⟩
      · exact hmeta ▸ hwf r hr
      · rw [hmeta]
        intro kv hkv
        rcases mem_mergeMeta r.meta m kv hkv with hkv | hkv
        · exact hwf r hr kv hkv
        · exact hop kv hkv
  | opEnsureIndex f =>
    refine ⟨hlt, hnd, hwf, ?_, ?_⟩ <;>
      · unfold step ensureIndex
        by_cases hf : f ∈ s.indexes <;> simp [hf, hi1, hi2]

theorem stateInv_run {M : Type} (ops : List (Op M)) (s : CollState M)
    (hops : ∀ op ∈ ops, wfOp op) (h : stateInv s) : stateInv (run s ops) := by
  induction ops generalizing s with
  | nil => exact h
  | cons op os ih =>
    exact ih (step op s) (fun o ho => hops o (List.mem_cons_of_mem op ho))
      (stateInv_step op s (hops op (List.mem_cons_self op os)) h)

theorem mem_indexes_step {M : Type} (op : Op M) (s : CollState M) (x : String)
    (h : x ∈ s.indexes) : x ∈ (step op s).indexes := by
  cases op with
  | opEnsureIndex f =>
    unfold step ensureIndex
    by_cases hf : f ∈ s.indexes <;> simp [hf, h]
  | opInsert msg d => exact h
  | opRemove q => exact h
  | opModify q m => exact h

theorem mem_indexes_run {M : Type} (ops : List (Op M)) (s : CollState M)
    (x : String) (h : x ∈ s.indexes) : x ∈ (run s ops).indexes := by
  induction ops generalizing s with
  | nil => exact h
  | cons op os ih => exact ih (step op s) (mem_indexes_step op s x h)

theorem md5_step {M : Type} (op : Op M) (s : CollState M) :
    (step op s).md5sumMatches = s.md5sumMatches := by
  cases op <;> rfl

theorem md5_run {M : Type} (ops : List (Op M)) (s : CollState M) :
    (run s ops).md5sumMatches = s.md5sumMatches := by
  induction ops generalizing s with
  | nil => rfl
  | cons op os ih => rw [show run s (op :: os) = run (step op s) os from rfl, ih, md5_step]

theorem countKey_metaDoc {M : Type} (r : Record M) (hwf : wfMeta r.meta) :
    countKey (metaDoc r) "_id" = 1 ∧ countKey (metaDoc r) "creation_time" = 1 := by
  have hid : List.filter (fun kv => kv.1 == "_id") r.meta = [] := by
    rw [List.filter_eq_nil_iff]
    intro kv hkv
    simpa using (hwf kv hkv).1
  have hct : List.filter (fun kv => kv.1 == "creation_time") r.meta = [] := by
    rw [List.filter_eq_nil_iff]
    intro kv hkv
    simpa using (hwf kv hkv).2
  unfold countKey metaDoc
  constructor <;> simp [List.filter_cons, hid, hct]

theorem step_ctime_immutable {M : Type} (op : Op M) (s : CollState M)
    (h : stateInv s) (r : Record M) (hr : r ∈ s.records) (r' : Record M)
    (hr' : r' ∈ (step op s).records) (hid : r'.id = r.id) :
    r'.ctime = r.ctime := by
  obtain ⟨hlt, hnd, _, _, _⟩ := h
  have inj := List.inj_on_of_nodup_map hnd
  cases op with
  | opInsert msg d =>
    rcases List.mem_append.mp hr' with h2 | h2
    · rw [inj h2 hr hid]
    · simp only [List.mem_singleton] at h2
      subst h2
      have : r.id < s.nextId := hlt r hr
      rw [← hid] at this
      exact absurd this (by simp [newRecord])
  | opRemove q =>
    rw [inj (List.mem_of_mem_filter hr') hr hid]
  | opModify q m =>
    rcases modifyFirstMatching_mem q m s.records r' hr' with
      ⟨rr, hrr, hid2, hct2, _⟩
    rw [hct2, inj hrr hr (hid2.symm.trans hid)]
  | opEnsureIndex f =>
    rw [inj hr' hr hid]

/-- C1: after `insert (msg, d)` succeeds on a collection handle, any query
over non-reserved fields whose predicate matches the metadata `d` returns,
via `queryResults` (and hence `findOne`), a stored record whose
deserialized message equals `msg` and whose metadata document contains
every key/value pair of `d`. -/
theorem c1_insert_retrievable {M : Type} [Inhabited M] (s : CollState M)
    (msg : M) (d : Metadata) (q : Query) (sortBy : String) (ascending : Bool)
    (hq : ∀ c ∈ q, c.field ≠ "_id" ∧ c.field ≠ "creation_time")
    (hd : metaMatches q d = true) :
    ∃ r ∈ queryResults (insert s msg d) q false sortBy ascending,
      r.msg = msg ∧ ∀ kv ∈ d, kv ∈ metaDoc r := by
  refine ⟨newRecord s msg d, ?_, rfl, ?_⟩
  · rw [mem_queryResults_no_meta_only]
    constructor
    · unfold insert
      simp
    · exact recordMatches_newRecord s msg d q hq hd
  · intro kv hkv
    unfold metaDoc newRecord
    simp [hkv]

/-- C1 witness: a concrete message inserted with metadata `x = 1` is found
by the query `x = 1`. -/
theorem c1_insert_retrievable_witness :
    ∃ r ∈ queryResults
        (insert (initState Nat "db" "coll" "a" "a") 42 [("x", Val.vnum 1)])
        [⟨"x", CmpOp.ceq, Val.vnum 1⟩] false "" true,
      r.msg = 42 ∧ ∀ kv ∈ ([("x", Val.vnum 1)] : Metadata), kv ∈ metaDoc r :=
  c1_insert_retrievable (initState Nat "db" "coll" "a" "a") 42
    [("x", Val.vnum 1)] [⟨"x", CmpOp.ceq, Val.vnum 1⟩] "" true
    (by decide) (by decide)

/-- C2: `removeMessages q` deletes exactly the stored records whose
metadata matches `q`: afterwards no matching record remains, every
non-matching record is still present (unchanged, being the same value),
and the returned count is the number of records deleted. -/
theorem c2_remove_exact {M : Type} (s : CollState M) (q : Query) :
    (∀ r ∈ ((removeMessages s q).2).records, recordMatches q r = false) ∧
    (∀ r ∈ s.records, recordMatches q r = false →
      r ∈ ((removeMessages s q).2).records) ∧
    (∀ r ∈ ((removeMessages s q).2).records, r ∈ s.records) ∧
    (removeMessages s q).1 + ((removeMessages s q).2).records.length =
      s.records.length ∧
    (removeMessages s q).1 =
      (List.filter (fun r => recordMatches q r) s.records).length := by
  refine ⟨?_, ?_, ?_, ?_, rfl⟩
  · intro r hr
    have h2 := (List.mem_filter.mp hr).2
    simpa using h2
  · intro r hr hm
    exact List.mem_filter.mpr ⟨hr, by simp [hm]⟩
  · intro r hr
    exact List.mem_of_mem_filter hr
  · exact (List.length_eq_length_filter_add
      (l := s.records) (fun r => recordMatches q r)).symm

/-- C2 witness: removing `x = 1` from a two-record collection deletes one
record, and the non-matching record survives. -/
theorem c2_remove_exact_witness :
    (⟨1, 1, [("x", Val.vnum 2)], 2⟩ : Record Nat) ∈
      ((removeMessages
        (insert (insert (initState Nat "db" "coll" "a" "a") 1 [("x", Val.vnum 1)])
          2 [("x", Val.vnum 2)])
        [⟨"x", CmpOp.ceq, Val.vnum 1⟩]).2).records :=
  (c2_remove_exact
    (insert (insert (initState Nat "db" "coll" "a" "a") 1 [("x", Val.vnum 1)])
      2 [("x", Val.vnum 2)])
    [⟨"x", CmpOp.ceq, Val.vnum 1⟩]).2.1
    ⟨1, 1, [("x", Val.vnum 2)], 2⟩ (by decide) (by decide)

/-- C4: `modifyMetadata (q, m)` updates a record matching `q` (the first
match) by overwriting exactly the metadata keys occurring in `m` with
`m`'s values; every key not occurring in `m` keeps its previous value,
the message payload, the id and the creation time are unchanged, and all
other records are untouched. -/
theorem c4_modify_merge {M : Type} (s : CollState M) (q : Query)
    (m : Metadata) (pre post : List (Record M)) (r : Record M)
    (hs : s.records = pre ++ r :: post)
    (hpre : ∀ x ∈ pre, recordMatches q x = false)
    (hr : recordMatches q r = true) :
    ∃ r', (modifyMetadata s q m).records = pre ++ r' :: post ∧
      r'.msg = r.msg ∧ r'.id = r.id ∧ r'.ctime = r.ctime ∧
      ∀ k, lookupMeta r'.meta k =
        Option.or (lookupMeta m k) (lookupMeta r.meta k) := by
  refine ⟨{ r with meta := mergeMeta r.meta m }, ?_, rfl, rfl, rfl, ?_⟩
  · unfold modifyMetadata
    rw [hs]
    exact modifyFirstMatching_eq q m pre post r hpre hr
  · intro k
    exact lookupMeta_mergeMeta r.meta m k

/-- C4 witness: updating the record matching `x = 1` with `y = 2`
overwrites `y` and keeps `x`. -/
theorem c4_modify_merge_witness :
    ∃ r', (modifyMetadata
        (insert (initState Nat "db" "coll" "a" "a") 1 [("x", Val.vnum 1)])
        [⟨"x", CmpOp.ceq, Val.vnum 1⟩] [("y", Val.vnum 2)]).records =
        [] ++ r' :: [] ∧
      r'.msg = (⟨0, 0, [("x", Val.vnum 1)], 1⟩ : Record Nat).msg ∧
      r'.id = (⟨0, 0, [("x", Val.vnum 1)], 1⟩ : Record Nat).id ∧
      r'.ctime = (⟨0, 0, [("x", Val.vnum 1)], 1⟩ : Record Nat).ctime ∧
      ∀ k, lookupMeta r'.meta k =
        Option.or (lookupMeta [("y", Val.vnum 2)] k)
          (lookupMeta (⟨0, 0, [("x", Val.vnum 1)], 1⟩ : Record Nat).meta k) :=
  c4_modify_merge
    (insert (initState Nat "db" "coll" "a" "a") 1 [("x", Val.vnum 1)])
    [⟨"x", CmpOp.ceq, Val.vnum 1⟩] [("y", Val.vnum 2)]
    [] [] ⟨0, 0, [("x", Val.vnum 1)], 1⟩ (by decide) (by decide) (by decide)

/-- C5: `findOne (q, metadataOnly)` throws `NoMatchingMessageException`
exactly when no stored record matches `q`; when at least one record
matches, it returns a single matching result and does not throw. -/
theorem c5_findOne_no_match {M : Type} [Inhabited M] (s : CollState M)
    (q : Query) (metadataOnly : Bool) :
    ((∀ r ∈ s.records, recordMatches q r = false) →
      findOne s q metadataOnly =
        Except.error QueryError.NoMatchingMessageException) ∧
    (∀ r0 ∈ s.records, recordMatches q r0 = true →
      ∃ r, findOne s q metadataOnly = Except.ok r ∧
        recordMatches q r = true) := by
  constructor
  · intro hnone
    unfold findOne
    rw [queryResults_nosort]
    have hnil : List.filter (fun r => recordMatches q r) s.records = [] := by
      rw [List.filter_eq_nil_iff]
      intro r hr
      simp [hnone r hr]
    rw [hnil]
    rfl
  · intro r0 hr0 hm
    unfold findOne
    rw [queryResults_nosort]
    cases hfl : List.filter (fun r => recordMatches q r) s.records with
    | nil =>
      exact absurd (hfl ▸ List.mem_filter.mpr ⟨hr0, hm⟩) (List.not_mem_nil r0)
    | cons rh rt =>
      have hrh : recordMatches q rh = true := by
        have hmem : rh ∈ List.filter (fun r => recordMatches q r) s.records := by
          rw [hfl]
          exact List.mem_cons_self rh rt
        exact (List.mem_filter.mp hmem).2
      refine ⟨if metadataOnly then { rh with msg := default } else rh,
        by simp [List.map_cons], ?_⟩
      by_cases hmo : metadataOnly
      · simp only [hmo, if_true]
        rw [recordMatches_set_msg]
        exact hrh
      · simp only [hmo, if_false]
        exact hrh

/-- C5 witness: on an empty collection the query `x = 1` raises
`NoMatchingMessageException`; after inserting a matching record the same
query succeeds. -/
theorem c5_findOne_no_match_witness :
    findOne (initState Nat "db" "coll" "a" "a") [⟨"x", CmpOp.ceq, Val.vnum 1⟩]
      false = Except.error QueryError.NoMatchingMessageException :=
  (c5_findOne_no_match (initState Nat "db" "coll" "a" "a")
    [⟨"x", CmpOp.ceq, Val.vnum 1⟩] false).1 (by decide)

/-- C3: in every state reachable from a fresh connection by well-formed
operations, every stored record's metadata document has exactly one
autogenerated `_id` field and exactly one autogenerated `creation_time`
field, no two stored records share an id, and no operation of the class
changes the id or the creation time of an existing record. -/
theorem c3_id_ctime_invariant {M : Type} (db coll storedMd5 compiledMd5 : String)
    (ops : List (Op M)) (hops : ∀ op ∈ ops, wfOp op) :
    (List.map Record.id
      ((run (initState M db coll storedMd5 compiledMd5) ops).records)).Nodup ∧
    (∀ r ∈ (run (initState M db coll storedMd5 compiledMd5) ops).records,
      countKey (metaDoc r) "_id" = 1 ∧
      countKey (metaDoc r) "creation_time" = 1) ∧
    (∀ op : Op M,
      ∀ r ∈ (run (initState M db coll storedMd5 compiledMd5) ops).records,
      ∀ r' ∈ (step op (run (initState M db coll storedMd5 compiledMd5) ops)).records,
        r'.id = r.id → r'.ctime = r.ctime) := by
  have hinv := stateInv_run ops _ hops
    (stateInv_init M db coll storedMd5 compiledMd5)
  refine ⟨hinv.2.1, ?_, ?_⟩
  · intro r hr
    exact countKey_metaDoc r (hinv.2.2.1 r hr)
  · intro op r hr r' hr' hid
    exact step_ctime_immutable op _ hinv r hr r' hr' hid

/-- C3 witness: after two concrete inserts the ids are distinct and each
metadata document carries its generated fields exactly once. -/
theorem c3_id_ctime_invariant_witness :
    (List.map Record.id
      ((run (initState Nat "db" "coll" "a" "a")
        [Op.opInsert 1 [("x", Val.vnum 1)], Op.opInsert 2 []]).records)).Nodup :=
  (c3_id_ctime_invariant "db" "coll" "a" "a"
    [Op.opInsert 1 [("x", Val.vnum 1)], Op.opInsert 2 []] (by decide)).1

/-- C6: every successful `insert` publishes exactly one notification on
the fixed topic `warehouse/<db>/<collection>/inserts` derived from the
names given at construction, and no other operation of the class
publishes anything. -/
theorem c6_insert_notification {M : Type} (s : CollState M) (msg : M)
    (d : Metadata) :
    (insert s msg d).published =
      s.published ++ ["warehouse/" ++ s.dbName ++ "/" ++ s.collName ++ "/inserts"] ∧
    (∀ op : Op M, (∀ m2 d2, op ≠ Op.opInsert m2 d2) →
      (step op s).published = s.published) := by
  constructor
  · rfl
  · intro op hop
    cases op with
    | opInsert m2 d2 => exact absurd rfl (hop m2 d2)
    | opRemove q => rfl
    | opModify q m => rfl
    | opEnsureIndex f => rfl

/-- C6 witness: a concrete insert appends the one expected topic, and a
concrete remove publishes nothing. -/
theorem c6_insert_notification_witness :
    (insert (initState Nat "db" "coll" "a" "a") 7 []).published =
      (initState Nat "db" "coll" "a" "a").published ++
        ["warehouse/" ++ (initState Nat "db" "coll" "a" "a").dbName ++ "/" ++
          (initState Nat "db" "coll" "a" "a").collName ++ "/inserts"] ∧
    (step (Op.opRemove []) (initState Nat "db" "coll" "a" "a")).published =
      (initState Nat "db" "coll" "a" "a").published :=
  ⟨(c6_insert_notification (initState Nat "db" "coll" "a" "a") 7 []).1,
    (c6_insert_notification (initState Nat "db" "coll" "a" "a") 7 []).2
      (Op.opRemove []) (fun _ _ h => Op.noConfusion h)⟩

/-- C7: driver failures are surfaced unchanged: a connection failure makes
the constructor throw `DbConnectException`, a write failure makes
`insert` throw `mongo::DBException`; on success the operations behave as
usual, with no local retry, recovery or partial effect. -/
theorem c7_driver_exceptions {M : Type} (drv : Driver)
    (db coll storedMd5 compiledMd5 : String) (s : CollState M) (msg : M)
    (d : Metadata) :
    (drv.connectOk = false →
      connectColl M drv db coll storedMd5 compiledMd5 =
        Except.error DbErr.DbConnectException) ∧
    (drv.connectOk = true →
      connectColl M drv db coll storedMd5 compiledMd5 =
        Except.ok (initState M db coll storedMd5 compiledMd5)) ∧
    (drv.insertOk = false →
      insertViaDriver drv s msg d = Except.error DbErr.DBException) ∧
    (drv.insertOk = true →
      insertViaDriver drv s msg d = Except.ok (insert s msg d)) := by
  refine ⟨?_, ?_, ?_, ?_⟩ <;>
    · intro h
      simp [connectColl, insertViaDriver, h]

/-- C7 witness: a failing connect and a failing write at concrete inputs
surface the two exceptions. -/
theorem c7_driver_exceptions_witness :
    connectColl Nat ⟨false, true⟩ "db" "coll" "a" "a" =
      Except.error DbErr.DbConnectException ∧
    insertViaDriver ⟨true, false⟩ (initState Nat "db" "coll" "a" "a") 5 [] =
      Except.error DbErr.DBException :=
  ⟨(c7_driver_exceptions ⟨false, true⟩ "db" "coll" "a" "a"
      (initState Nat "db" "coll" "a" "a") 5 []).1 rfl,
    (c7_driver_exceptions ⟨true, false⟩ "db" "coll" "a" "a"
      (initState Nat "db" "coll" "a" "a") 5 []).2.2.1 rfl⟩

/-- C8: `md5SumMatches` returns true exactly when the locally computed
digest of the compiled message type equals the digest stored by a prior
run, whatever operations have run since connecting; being a pure
function of the state, it modifies no stored record. -/
theorem c8_md5SumMatches {M : Type} (db coll storedMd5 compiledMd5 : String)
    (ops : List (Op M)) :
    md5SumMatches (run (initState M db coll storedMd5 compiledMd5) ops) = true ↔
      compiledMd5 = storedMd5 := by
  unfold md5SumMatches
  rw [md5_run]
  unfold initState
  simp

/-- C9: after `ensureIndex field` there is an index on the given field and
the stored records are unchanged; and in every reachable state the
indexes on `_id` and `creation_time` exist, `ensureIndex` or not. -/
theorem c9_ensureIndex_post {M : Type} (s : CollState M) (f : String)
    (db coll storedMd5 compiledMd5 : String) (ops : List (Op M)) :
    (f ∈ (ensureIndex s f).indexes ∧ (ensureIndex s f).records = s.records) ∧
    ("_id" ∈ (run (initState M db coll storedMd5 compiledMd5) ops).indexes ∧
     "creation_time" ∈
       (run (initState M db coll storedMd5 compiledMd5) ops).indexes) := by
  refine ⟨⟨?_, rfl⟩, ?_, ?_⟩
  · unfold ensureIndex
    by_cases hf : f ∈ s.indexes <;> simp [hf]
  · exact mem_indexes_run ops _ _ (by unfold initState; simp)
  · exact mem_indexes_run ops _ _ (by unfold initState; simp)

/-- C10: `pullAllResults` returns exactly the sequence produced by
iterating the range returned by `queryResults`, in the same order; and
with `metadataOnly` set, every returned message object is default
constructed. -/
theorem c10_pullAllResults_refines {M : Type} [Inhabited M] (s : CollState M)
    (q : Query) (metadataOnly : Bool) (sortBy : String) (ascending : Bool) :
    pullAllResults s q metadataOnly sortBy ascending =
      queryResults s q metadataOnly sortBy ascending ∧
    (metadataOnly = true →
      ∀ r ∈ pullAllResults s q metadataOnly sortBy ascending,
        r.msg = default) := by
  have he : pullAllResults s q metadataOnly sortBy ascending =
      queryResults s q metadataOnly sortBy ascending := by
    unfold pullAllResults
    rw [foldl_push_eq]
    simp
  refine ⟨he, ?_⟩
  intro hmo r hr
  rw [he] at hr
  subst hmo
  simp only [queryResults, if_true] at hr
  rcases List.mem_map.mp hr with ⟨r0, _, hr0⟩
  rw [← hr0]

/-- C10 witness: at a concrete metadata-only query the vector equals the
range and the returned message is default constructed. -/
theorem c10_pullAllResults_refines_witness :
    (⟨0, 0, [("x", Val.vnum 1)], 0⟩ : Record Nat) ∈
      pullAllResults (insert (initState Nat "db" "coll" "a" "a") 9
        [("x", Val.vnum 1)]) [] true "" true ∧
    (Record.msg (⟨0, 0, [("x", Val.vnum 1)], 0⟩ : Record Nat)) = default :=
  ⟨by decide,
    (c10_pullAllResults_refines
      (insert (initState Nat "db" "coll" "a" "a") 9 [("x", Val.vnum 1)])
      [] true "" true).2 rfl ⟨0, 0, [("x", Val.vnum 1)], 0⟩ (by decide)⟩

end MongoRos
